import Mathlib

/-! Shallow embedding of the core logic of the profullstack ai agent:
JavaScript string helpers, the approved-command matcher from
actions.js, the file diff engine from file-diff.js, the action parser
and dispatch loop of the enhanced agent, the permission gate, and the
conversation history handling of the base agent, together with
theorems that settle the specification claims against these
definitions. -/

/-- Characters removed by the JavaScript trim used on file lines and paths. -/
def isJsSpace (c : Char) : Bool :=
  c == ' ' || c == '\t' || c == '\n' || c == '\r' || c == '\x0b' || c == '\x0c'

/-- JavaScript trim: remove leading and trailing whitespace. -/
def jsTrim (s : String) : String :=
  String.mk (((s.data.dropWhile isJsSpace).reverse.dropWhile isJsSpace).reverse)

/-- Helper for splitting a character list at newline characters. -/
def jsSplitNlAux : List Char → List Char → List String
  | [], acc => [String.mk acc.reverse]
  | c :: cs, acc =>
      if c == '\n' then String.mk acc.reverse :: jsSplitNlAux cs []
      else jsSplitNlAux cs (c :: acc)

/-- JavaScript split on the newline character: the empty string splits
to a single empty line, and a trailing newline yields a final empty line. -/
def jsSplitNl (s : String) : List String := jsSplitNlAux s.data []

/-- JavaScript join with newline separators, inverse of jsSplitNl. -/
def joinNl : List String → String
  | [] => ""
  | [l] => l
  | l :: ls => l ++ "\n" ++ joinNl ls

/-- The first element of a JavaScript split on the space character:
the longest initial run of characters other than a space. -/
def firstSpaceToken (s : String) : String :=
  String.mk (s.data.takeWhile (fun c => c != ' '))

/-- The first whitespace-delimited token of a string: leading whitespace
is skipped and the token ends at any whitespace character. Used to state
the specification reading of the command matcher. -/
def firstWsToken (s : String) : String :=
  String.mk ((s.data.dropWhile isJsSpace).takeWhile (fun c => !isJsSpace c))

/-- isCommandApproved from actions.js: an exact membership test first,
then a comparison of the first space-delimited token of the command
against the first space-delimited token of each approved entry. -/
def isCommandApproved (approvedCommands : List String) (command : String) : Bool :=
  if approvedCommands.contains command then true
  else
    let commandBase := firstSpaceToken command
    approvedCommands.any (fun approved => commandBase == firstSpaceToken approved)

/-- Linear scan returning the least index at or after the start index,
within the given fuel, at which the predicate holds. Models the
forward scanning loops of the JavaScript source. -/
def scanFirst (p : Nat → Bool) : Nat → Nat → Option Nat
  | _, 0 => none
  | i, fuel + 1 => if p i then some i else scanFirst p (i + 1) fuel

theorem scanFirst_eq_none_iff (p : Nat → Bool) :
    ∀ fuel i, scanFirst p i fuel = none ↔ ∀ j, i ≤ j → j < i + fuel → p j = false := by
  intro fuel
  induction fuel with
  | zero =>
      intro i
      constructor
      · intro _ j h1 h2
        exact absurd h2 (by omega)
      · intro _
        rfl
  | succ n ih =>
      intro i
      by_cases hp : p i = true
      · simp only [scanFirst, hp, if_true]
        constructor
        · intro h
          exact absurd h (by simp)
        · intro h
          have := h i (Nat.le_refl i) (by omega)
          rw [hp] at this
          exact absurd this (by simp)
      · have hp2 : p i = false := by
          revert hp
          cases p i <;> simp
        simp only [scanFirst, hp2, Bool.false_eq_true, if_false]
        rw [ih (i + 1)]
        constructor
        · intro h j h1 h2
          rcases Nat.eq_or_lt_of_le h1 with h3 | h3
          · rw [← h3]
            exact hp2
          · exact h j h3 (by omega)
        · intro h j h1 h2
          exact h j (by omega) (by omega)

theorem scanFirst_eq_some_iff (p : Nat → Bool) :
    ∀ fuel i k, scanFirst p i fuel = some k ↔
      i ≤ k ∧ k < i + fuel ∧ p k = true ∧ ∀ j, i ≤ j → j < k → p j = false := by
  intro fuel
  induction fuel with
  | zero =>
      intro i k
      constructor
      · intro h
        exact absurd h (by simp [scanFirst])
      · rintro ⟨h1, h2, -⟩
        exact absurd h2 (by omega)
  | succ n ih =>
      intro i k
      by_cases hp : p i = true
      · simp only [scanFirst, hp, if_true, Option.some.injEq]
        constructor
        · rintro rfl
          exact ⟨Nat.le_refl i, by omega, hp, fun j h1 h2 => absurd (Nat.lt_of_le_of_lt h1 h2) (Nat.lt_irrefl i)⟩
        · rintro ⟨h1, h2, h3, h4⟩
          by_cases hk : i = k
          · exact hk
          · have h5 : p i = false := h4 i (Nat.le_refl i) (Nat.lt_of_le_of_ne h1 hk)
            rw [hp] at h5
            exact absurd h5 (by simp)
      · have hp2 : p i = false := by
          revert hp
          cases p i <;> simp
        simp only [scanFirst, hp2, Bool.false_eq_true, if_false]
        rw [ih (i + 1) k]
        constructor
        · rintro ⟨h1, h2, h3, h4⟩
          refine ⟨by omega, by omega, h3, fun j hj1 hj2 => ?_⟩
          rcases Nat.eq_or_lt_of_le hj1 with h5 | h5
          · rw [← h5]
            exact hp2
          · exact h4 j h5 hj2
        · rintro ⟨h1, h2, h3, h4⟩
          have hik : i ≠ k := by
            intro e
            rw [← e] at h3
            rw [hp2] at h3
            exact absurd h3 (by simp)
          refine ⟨by omega, by omega, h3, fun j hj1 hj2 => h4 j (by omega) hj2⟩

/-- One candidate position of the replace-block scan: the span of file
lines starting at index i has the same line count as the search lines
and is trimmed-equal to them line by line. Mirrors the inner loop of
applyReplaceBlock and applyInsertBlock in file-diff.js. -/
def matchesAt (lines searchLines : List String) (i : Nat) : Bool :=
  decide (i + searchLines.length ≤ lines.length) &&
    (((lines.drop i).take searchLines.length).zip searchLines).all
      (fun pr => jsTrim pr.1 == jsTrim pr.2)

/-- The outer loop of applyReplaceBlock and applyInsertBlock: scan the
candidate start indices left to right and stop at the first match. -/
def findMatchIdx (lines searchLines : List String) : Option Nat :=
  scanFirst (matchesAt lines searchLines) 0 (lines.length + 1 - searchLines.length)

theorem matchesAt_le (lines searchLines : List String) (i : Nat)
    (h : matchesAt lines searchLines i = true) :
    i + searchLines.length ≤ lines.length := by
  unfold matchesAt at h
  rw [Bool.and_eq_true] at h
  exact of_decide_eq_true h.1

theorem findMatchIdx_eq_some (lines searchLines : List String) (i : Nat)
    (h1 : matchesAt lines searchLines i = true)
    (h2 : ∀ j, j < i → matchesAt lines searchLines j = false) :
    findMatchIdx lines searchLines = some i := by
  unfold findMatchIdx
  rw [scanFirst_eq_some_iff]
  have h3 := matchesAt_le lines searchLines i h1
  exact ⟨Nat.zero_le i, by omega, h1, fun j _ hj => h2 j hj⟩

theorem findMatchIdx_none_iff (lines searchLines : List String) :
    findMatchIdx lines searchLines = none ↔ ∀ i, matchesAt lines searchLines i = false := by
  unfold findMatchIdx
  rw [scanFirst_eq_none_iff]
  constructor
  · intro h i
    by_cases hi : i < lines.length + 1 - searchLines.length
    · exact h i (Nat.zero_le i) (by omega)
    · cases hm : matchesAt lines searchLines i with
      | false => rfl
      | true =>
          have := matchesAt_le lines searchLines i hm
          exact absurd (by omega : i < lines.length + 1 - searchLines.length) hi
  · intro h j _ _
    exact h j

/-- A parsed diff block from file-diff.js: a SEARCH/REPLACE pair or an
INSERT_AFTER pair, each holding raw multi-line text. -/
inductive DiffBlock where
  | replace (searchText replaceText : String)
  | insert (searchText insertText : String)
deriving DecidableEq, Repr

/-- applyReplaceBlock from file-diff.js: split the search and replacement
texts into lines, scan the file lines for the first trimmed-equal span,
splice the replacement lines over it and report the larger of the two
line counts; with no match anywhere, fail with the message that carries
the unmatched search text. -/
def applyReplaceBlock (lines : List String) (searchText replaceText : String) :
    Except String (List String × Nat) :=
  let searchLines := jsSplitNl searchText
  let replaceLines := jsSplitNl replaceText
  match findMatchIdx lines searchLines with
  | some i =>
      Except.ok (lines.take i ++ replaceLines ++ lines.drop (i + searchLines.length),
        max searchLines.length replaceLines.length)
  | none => Except.error ("Search pattern not found in file:\n" ++ searchText)

/-- applyInsertBlock from file-diff.js: locate the anchor span with the
same scan as the replace case and splice the insertion lines right
after it, reporting the inserted line count. -/
def applyInsertBlock (lines : List String) (searchText insertText : String) :
    Except String (List String × Nat) :=
  let searchLines := jsSplitNl searchText
  let insertLines := jsSplitNl insertText
  match findMatchIdx lines searchLines with
  | some i =>
      Except.ok (lines.take (i + searchLines.length) ++ insertLines ++
        lines.drop (i + searchLines.length), insertLines.length)
  | none => Except.error ("Search pattern not found for insertion:\n" ++ searchText)

/-- applyDiffBlock from file-diff.js: dispatch on the block kind. -/
def applyDiffBlock (lines : List String) : DiffBlock → Except String (List String × Nat)
  | DiffBlock.replace se re => applyReplaceBlock lines se re
  | DiffBlock.insert se ins => applyInsertBlock lines se ins

/-- Claim C3: applying a replace block with non-empty search text
replaces the first, lowest-index span of lines that is trimmed-equal to
the search lines with the replacement lines and reports the maximum of
the two line counts; if no span matches anywhere the application fails
with the pattern-not-found message carrying the unmatched search text. -/
theorem applyReplaceBlock_first_match (lines : List String) (searchText replaceText : String)
    (_hne : searchText ≠ "") :
    (∀ i, matchesAt lines (jsSplitNl searchText) i = true →
      (∀ j, j < i → matchesAt lines (jsSplitNl searchText) j = false) →
      applyReplaceBlock lines searchText replaceText =
        Except.ok
          (lines.take i ++ jsSplitNl replaceText ++
            lines.drop (i + (jsSplitNl searchText).length),
            max (jsSplitNl searchText).length (jsSplitNl replaceText).length)) ∧
    ((∀ i, matchesAt lines (jsSplitNl searchText) i = false) →
      applyReplaceBlock lines searchText replaceText =
        Except.error ("Search pattern not found in file:\n" ++ searchText)) := by
  constructor
  · intro i h1 h2
    have hf := findMatchIdx_eq_some lines (jsSplitNl searchText) i h1 h2
    simp [applyReplaceBlock, hf]
  · intro h
    have hf : findMatchIdx lines (jsSplitNl searchText) = none :=
      (findMatchIdx_none_iff lines (jsSplitNl searchText)).mpr h
    simp [applyReplaceBlock, hf]

/-- Witness for claim C3, the scenario from the specification: the diff
block with search foo() and replacement foo(x), applied to the line list
of a file whose content is foo() followed by a newline, rewrites the
first line and reports one changed line. -/
theorem applyReplaceBlock_first_match_witness :
    applyReplaceBlock ["foo()", ""] "foo()" "foo(x)" = Except.ok (["foo(x)", ""], 1) := by
  have h := (applyReplaceBlock_first_match ["foo()", ""] "foo()" "foo(x)" (by decide)).1 0
    (by decide) (fun j hj => absurd hj (Nat.not_lt_zero j))
  exact h.trans rfl

theorem matchesAt_single_empty (lines : List String) (i : Nat) :
    matchesAt lines [""] i = true ↔ ∃ h : i < lines.length, jsTrim lines[i] = "" := by
  unfold matchesAt
  constructor
  · intro h
    rw [Bool.and_eq_true] at h
    have hi : i + 1 ≤ lines.length := of_decide_eq_true h.1
    have hlt : i < lines.length := by omega
    refine ⟨hlt, ?_⟩
    have hdrop := List.drop_eq_getElem_cons hlt
    rw [hdrop] at h
    have h2 := h.2
    simp only [List.take, List.zip, List.zipWith, List.all] at h2
    rw [Bool.and_eq_true] at h2
    have h3 : jsTrim lines[i] = jsTrim "" := by
      have := h2.1
      exact eq_of_beq this
    simpa using h3
  · rintro ⟨hlt, hjt⟩
    rw [Bool.and_eq_true]
    constructor
    · exact decide_eq_true (by simp only [List.length_singleton]; omega)
    · have hdrop := List.drop_eq_getElem_cons hlt
      rw [hdrop]
      simp only [List.take, List.zip, List.zipWith, List.all]
      rw [Bool.and_eq_true]
      constructor
      · rw [hjt]
        rfl
      · rfl

/-- Counterexample to claim C9: a replace block whose search text is
empty is not rejected; applied to the line list of an empty file it
matches the single empty line and succeeds, replacing it. -/
theorem applyReplaceBlock_empty_search_succeeds :
    applyReplaceBlock [""] "" "x" = Except.ok (["x"], 1) := rfl

/-- Claim C9 as amended: a replace block whose search text is empty is
treated as a one-line search for a line whose trimmed content is empty;
it is rejected through the pattern-not-found failure path exactly when
the file has no whitespace-only line, and otherwise replaces the first
such line, so the accepted span is never empty but the block itself can
be accepted. -/
theorem applyReplaceBlock_empty_search_iff (lines : List String) (replaceText : String) :
    applyReplaceBlock lines "" replaceText =
        Except.error ("Search pattern not found in file:\n" ++ "") ↔
      ∀ l ∈ lines, jsTrim l ≠ "" := by
  have hsplit : jsSplitNl "" = [""] := rfl
  constructor
  · intro he l hl hjt
    rcases List.mem_iff_getElem.mp hl with ⟨i, hi, rfl⟩
    have hnone : findMatchIdx lines (jsSplitNl "") = none := by
      rcases hf : findMatchIdx lines (jsSplitNl "") with _ | k
      · rfl
      · simp [applyReplaceBlock, hf] at he
    rw [hsplit] at hnone
    have hall := (findMatchIdx_none_iff lines [""]).mp hnone i
    have : matchesAt lines [""] i = true := (matchesAt_single_empty lines i).mpr ⟨hi, hjt⟩
    rw [hall] at this
    exact absurd this (by simp)
  · intro h
    have hnone : findMatchIdx lines [""] = none := by
      rw [findMatchIdx_none_iff]
      intro i
      cases hm : matchesAt lines [""] i with
      | false => rfl
      | true =>
          rcases (matchesAt_single_empty lines i).mp hm with ⟨hi, hjt⟩
          exact absurd hjt (h lines[i] (List.getElem_mem hi))
    simp [applyReplaceBlock, hsplit, hnone]

/-- Counterexample to claim C2: with a tab between the command name and
its arguments, the first whitespace-delimited token of the command
equals the first token of an approved entry, yet isCommandApproved
returns false, because the source splits on the space character only. -/
theorem isCommandApproved_ws_counterexample :
    ¬ (isCommandApproved ["ls"] "ls\t-la" = true ↔
        ("ls\t-la" ∈ ["ls"] ∨ ∃ l ∈ (["ls"] : List String),
          firstWsToken "ls\t-la" = firstWsToken l)) := by
  decide

/-- Claim C2 as amended: isCommandApproved holds exactly when the
command is an element of the approved list, or the first
space-delimited token of the command (its prefix up to the first space
character, with no other whitespace acting as a delimiter) equals the
first space-delimited token of some approved entry. -/
theorem isCommandApproved_iff (approvedCommands : List String) (command : String) :
    isCommandApproved approvedCommands command = true ↔
      command ∈ approvedCommands ∨
        ∃ l ∈ approvedCommands, firstSpaceToken command = firstSpaceToken l := by
  unfold isCommandApproved
  by_cases h : approvedCommands.contains command
  · simp only [h, if_true, true_iff]
    exact Or.inl (by simpa using h)
  · simp only [h, Bool.false_eq_true, if_false, List.any_eq_true, beq_iff_eq]
    constructor
    · rintro ⟨l, hl, he⟩
      exact Or.inr ⟨l, hl, he⟩
    · rintro (hmem | ⟨l, hl, he⟩)
      · exact absurd (by simpa using hmem : approvedCommands.contains command = true) h
      · exact ⟨l, hl, he⟩

/-- The given pattern occurs in the string at character index i. -/
def occursAt (s pat : String) (i : Nat) : Bool :=
  (s.data.drop i).take pat.data.length == pat.data

/-- JavaScript forward substring search: the least index at or after
the start index at which the pattern occurs. -/
def findFrom (s pat : String) (start : Nat) : Option Nat :=
  scanFirst (occursAt s pat) start (s.data.length + 1 - start)

/-- JavaScript indexOf. -/
def jsIndexOf (s pat : String) : Option Nat := findFrom s pat 0

/-- Backward scan for the last occurrence of a pattern at or below the
given index. -/
def findLastFrom (s pat : String) : Nat → Option Nat
  | 0 => if occursAt s pat 0 then some 0 else none
  | i + 1 => if occursAt s pat (i + 1) then some (i + 1) else findLastFrom s pat i

/-- JavaScript lastIndexOf. -/
def jsLastIndexOf (s pat : String) : Option Nat := findLastFrom s pat s.data.length

/-- The substring of s from character index a inclusive to b exclusive. -/
def substrRange (s : String) (a b : Nat) : String :=
  String.mk ((s.data.drop a).take (b - a))

/-- The marker strings of the diff grammar in file-diff.js. -/
def replaceHeaderMark : String := "<<<<<<< SEARCH\n"

/-- Header marker of an INSERT_AFTER block. -/
def insertHeaderMark : String := "<<<<<<< INSERT_AFTER\n"

/-- Separator marker between the two capture groups of a diff block. -/
def diffSeparatorMark : String := "\n=======\n"

/-- Terminator marker of a SEARCH/REPLACE block. -/
def replaceEndMark : String := "\n>>>>>>> REPLACE"

/-- Terminator marker of an INSERT_AFTER block. -/
def insertEndMark : String := "\n>>>>>>> INSERT"

/-- One step of the lazy regular expression scan of parseDiffBlocks:
from a start position, find the leftmost header marker that is followed
by a separator and then a terminator; the two capture groups are the
shortest texts between the markers, and the returned positions are the
header position and the end of the whole match, where the next scan
resumes. -/
def scanDiffFrom (s header sep term : String) (pos : Nat) :
    Option (Nat × String × String × Nat) :=
  match findFrom s header pos with
  | none => none
  | some p =>
      match findFrom s sep (p + header.data.length) with
      | none => none
      | some q =>
          match findFrom s term (q + sep.data.length) with
          | none => none
          | some r =>
              some (p, substrRange s (p + header.data.length) q,
                substrRange s (q + sep.data.length) r, r + term.data.length)

/-- The global regular expression loop of parseDiffBlocks for one block
kind: repeatedly take the leftmost match at or after the current
position and resume at its end, recording the header position of each
match alongside the block it produces. -/
def scanDiffBlocks (s header sep term : String) (mk : String → String → DiffBlock) :
    Nat → Nat → List (Nat × DiffBlock)
  | _, 0 => []
  | pos, fuel + 1 =>
      match scanDiffFrom s header sep term pos with
      | none => []
      | some (p, g1, g2, e) => (p, mk g1 g2) :: scanDiffBlocks s header sep term mk e fuel

/-- parseDiffBlocks from file-diff.js: one full pass collecting every
SEARCH/REPLACE block, then a second full pass collecting every
INSERT_AFTER block, the two lists concatenated in that order. -/
def parseDiffBlocks (s : String) : List DiffBlock :=
  (scanDiffBlocks s replaceHeaderMark diffSeparatorMark replaceEndMark DiffBlock.replace 0
    (s.data.length + 1)).map Prod.snd ++
  (scanDiffBlocks s insertHeaderMark diffSeparatorMark insertEndMark DiffBlock.insert 0
    (s.data.length + 1)).map Prod.snd

/-- The application loop of applyFileDiff: apply the blocks one after
another, threading the modified lines and summing the change counts; a
thrown pattern-not-found error aborts the loop. -/
def applyBlocksSeq : List String → Nat → List DiffBlock → Except String (List String × Nat)
  | lines, total, [] => Except.ok (lines, total)
  | lines, total, b :: bs =>
      match applyDiffBlock lines b with
      | Except.ok (l2, c) => applyBlocksSeq l2 (total + c) bs
      | Except.error e => Except.error e

/-- The pure core of applyFileDiff from file-diff.js: split the current
file content into lines, parse the diff blocks, apply them in reverse
parse order, and join the modified lines back into the new content,
paired with the total change count. -/
def applyFileDiffCore (currentContent diffContent : String) : Except String (String × Nat) :=
  match applyBlocksSeq (jsSplitNl currentContent) 0 (parseDiffBlocks diffContent).reverse with
  | Except.ok (ls, total) => Except.ok (joinNl ls, total)
  | Except.error e => Except.error e

theorem findFrom_some (s pat : String) (start i : Nat) (h : findFrom s pat start = some i) :
    start ≤ i ∧ occursAt s pat i = true := by
  unfold findFrom at h
  rw [scanFirst_eq_some_iff] at h
  exact ⟨h.1, h.2.2.1⟩

theorem scanDiffFrom_bounds (s header sep term : String) (hh : 0 < header.data.length)
    (pos p : Nat) (g1 g2 : String) (e : Nat)
    (h : scanDiffFrom s header sep term pos = some (p, g1, g2, e)) :
    pos ≤ p ∧ occursAt s header p = true ∧ p < e := by
  unfold scanDiffFrom at h
  split at h
  · exact absurd h (by simp)
  · rename_i p2 hf1
    split at h
    · exact absurd h (by simp)
    · rename_i q hf2
      split at h
      · exact absurd h (by simp)
      · rename_i r hf3
        simp only [Option.some.injEq, Prod.mk.injEq] at h
        obtain ⟨he1, -, -, he4⟩ := h
        have hb1 := findFrom_some s header pos p2 hf1
        have hb2 := findFrom_some s sep (p2 + header.data.length) q hf2
        have hb3 := findFrom_some s term (q + sep.data.length) r hf3
        subst he1
        constructor
        · exact hb1.1
        · constructor
          · exact hb1.2
          · omega

theorem scanDiffBlocks_facts (s header sep term : String)
    (mk : String → String → DiffBlock) (hh : 0 < header.data.length) :
    ∀ fuel pos,
      (∀ x ∈ scanDiffBlocks s header sep term mk pos fuel,
        pos ≤ x.1 ∧ occursAt s header x.1 = true ∧ ∃ a b, x.2 = mk a b) ∧
      List.Chain' (fun a b : Nat × DiffBlock => a.1 < b.1)
        (scanDiffBlocks s header sep term mk pos fuel) := by
  intro fuel
  induction fuel with
  | zero =>
      intro pos
      simp [scanDiffBlocks]
  | succ n ih =>
      intro pos
      rcases hf : scanDiffFrom s header sep term pos with _ | ⟨p, g1, g2, e⟩
      · simp [scanDiffBlocks, hf]
      · have hb := scanDiffFrom_bounds s header sep term hh pos p g1 g2 e hf
        have iht := ih e
        constructor
        · intro x hx
          simp only [scanDiffBlocks, hf, List.mem_cons] at hx
          rcases hx with rfl | hx
          · exact ⟨hb.1, hb.2.1, g1, g2, rfl⟩
          · have := iht.1 x hx
            exact ⟨by omega, this.2.1, this.2.2⟩
        · simp only [scanDiffBlocks, hf]
          rw [List.chain'_cons']
          constructor
          · intro y hy
            have hym : y ∈ scanDiffBlocks s header sep term mk e n := by
              rcases hl : scanDiffBlocks s header sep term mk e n with _ | ⟨z, zs⟩
              · rw [hl] at hy
                exact absurd hy (by simp)
              · rw [hl] at hy
                simp only [List.head?_cons, Option.mem_def, Option.some.injEq] at hy
                rw [← hy]
                exact List.mem_cons_self z zs
            have := iht.1 y hym
            omega
          · exact iht.2

/-- A diff document whose INSERT_AFTER block textually precedes its
SEARCH/REPLACE block. -/
def mixedDiffDoc : String :=
  "<<<<<<< INSERT_AFTER\nA\n=======\nB\n>>>>>>> INSERT\n<<<<<<< SEARCH\nC\n=======\nD\n>>>>>>> REPLACE"

/-- Counterexample to claim C8: in mixedDiffDoc the INSERT_AFTER header
sits at position 0 and the SEARCH header at position 48, yet
parseDiffBlocks returns the replace block first, so the returned blocks
are not interleaved in document order. -/
theorem parseDiffBlocks_not_document_order :
    occursAt mixedDiffDoc insertHeaderMark 0 = true ∧
    findFrom mixedDiffDoc replaceHeaderMark 0 = some 48 ∧
    parseDiffBlocks mixedDiffDoc =
      [DiffBlock.replace "C" "D", DiffBlock.insert "A" "B"] := by
  decide

/-- Claim C8 as amended: parseDiffBlocks returns every SEARCH/REPLACE
block, in document order, followed by every INSERT_AFTER block, in
document order — the two kinds are collected in two separate passes and
are not interleaved by document position — and applyFileDiff applies
the parsed block list in exactly the reverse of that parse order. -/
theorem parseDiffBlocks_order (d : String) :
    ∃ rps ips : List (Nat × DiffBlock),
      parseDiffBlocks d = rps.map Prod.snd ++ ips.map Prod.snd ∧
      List.Chain' (fun a b : Nat × DiffBlock => a.1 < b.1) rps ∧
      List.Chain' (fun a b : Nat × DiffBlock => a.1 < b.1) ips ∧
      (∀ x ∈ rps, occursAt d replaceHeaderMark x.1 = true ∧
        ∃ a b, x.2 = DiffBlock.replace a b) ∧
      (∀ x ∈ ips, occursAt d insertHeaderMark x.1 = true ∧
        ∃ a b, x.2 = DiffBlock.insert a b) ∧
      ∀ content : String,
        applyFileDiffCore content d =
          match applyBlocksSeq (jsSplitNl content) 0 (parseDiffBlocks d).reverse with
          | Except.ok (ls, total) => Except.ok (joinNl ls, total)
          | Except.error e => Except.error e := by
  refine ⟨scanDiffBlocks d replaceHeaderMark diffSeparatorMark replaceEndMark
      DiffBlock.replace 0 (d.data.length + 1),
    scanDiffBlocks d insertHeaderMark diffSeparatorMark insertEndMark
      DiffBlock.insert 0 (d.data.length + 1), rfl, ?_, ?_, ?_, ?_, fun _ => rfl⟩
  · exact (scanDiffBlocks_facts d replaceHeaderMark diffSeparatorMark replaceEndMark
      DiffBlock.replace (by decide) (d.data.length + 1) 0).2
  · exact (scanDiffBlocks_facts d insertHeaderMark diffSeparatorMark insertEndMark
      DiffBlock.insert (by decide) (d.data.length + 1) 0).2
  · intro x hx
    have := (scanDiffBlocks_facts d replaceHeaderMark diffSeparatorMark replaceEndMark
      DiffBlock.replace (by decide) (d.data.length + 1) 0).1 x hx
    exact ⟨this.2.1, this.2.2⟩
  · intro x hx
    have := (scanDiffBlocks_facts d insertHeaderMark diffSeparatorMark insertEndMark
      DiffBlock.insert (by decide) (d.data.length + 1) 0).1 x hx
    exact ⟨this.2.1, this.2.2⟩

/-- An action token extracted from a model reply by processActions:
the upper-case type name, the parameter payload, and the full matched
text that is spliced over when the action completes. -/
structure ActionMatch where
  actionType : String
  params : String
  fullMatch : String
deriving DecidableEq, Repr

/-- Characters admitted in an action type name by the extraction
pattern of processActions: upper-case letters and the underscore. -/
def isActionTypeChar (c : Char) : Bool :=
  (decide ('A' ≤ c) && decide (c ≤ 'Z')) || c == '_'

/-- Attempt to match one action token at a fixed position: the literal
ACTION: marker, a non-empty run of type characters, a colon, then a
non-empty run of characters up to but excluding the next newline — the
payload of the extraction pattern in processActions stops at the end of
the line. -/
def tryActionAt (s : String) (p : Nat) : Option (ActionMatch × Nat) :=
  if occursAt s "ACTION:" p then
    let rest := s.data.drop (p + 7)
    let tyRun := rest.takeWhile isActionTypeChar
    if tyRun.length == 0 then none
    else
      match rest.drop tyRun.length with
      | ':' :: rest2 =>
          let prRun := rest2.takeWhile (fun c => c != '\n')
          if prRun.length == 0 then none
          else
            some (ActionMatch.mk (String.mk tyRun) (String.mk prRun)
                ("ACTION:" ++ String.mk tyRun ++ ":" ++ String.mk prRun),
              p + 7 + tyRun.length + 1 + prRun.length)
      | _ => none
  else none

/-- The leftmost action token starting at or after the given position. -/
def findActionFrom (s : String) : Nat → Nat → Option (ActionMatch × Nat)
  | _, 0 => none
  | pos, fuel + 1 =>
      match tryActionAt s pos with
      | some r => some r
      | none => findActionFrom s (pos + 1) fuel

/-- The global extraction loop of processActions: collect the action
tokens left to right, resuming each scan at the end of the previous
match. -/
def extractActionsAux (s : String) : Nat → Nat → List ActionMatch
  | _, 0 => []
  | pos, fuel + 1 =>
      match findActionFrom s pos (s.data.length + 1 - pos) with
      | none => []
      | some (a, e) => a :: extractActionsAux s e fuel

/-- All action tokens of a model reply, in extraction order. -/
def extractActions (s : String) : List ActionMatch :=
  extractActionsAux s 0 (s.data.length + 1)

theorem tryActionAt_params_no_newline (s : String) (p : Nat) (a : ActionMatch) (e : Nat)
    (h : tryActionAt s p = some (a, e)) : ∀ c ∈ a.params.data, c ≠ '\n' := by
  unfold tryActionAt at h
  split at h
  · dsimp only at h
    split at h
    · exact absurd h (by simp)
    · split at h
      · rename_i rest2 heq
        split at h
        · exact absurd h (by simp)
        · simp only [Option.some.injEq, Prod.mk.injEq] at h
          intro c hc
          rw [← h.1] at hc
          have := List.mem_takeWhile_imp hc
          simpa using this
      · exact absurd h (by simp)
  · exact absurd h (by simp)

theorem findActionFrom_params_no_newline (s : String) :
    ∀ fuel pos a e, findActionFrom s pos fuel = some (a, e) → ∀ c ∈ a.params.data, c ≠ '\n' := by
  intro fuel
  induction fuel with
  | zero =>
      intro pos a e h
      exact absurd h (by simp [findActionFrom])
  | succ n ih =>
      intro pos a e h
      unfold findActionFrom at h
      split at h
      · rename_i r hr
        simp only [Option.some.injEq] at h
        rw [h] at hr
        exact tryActionAt_params_no_newline s pos a e hr
      · exact ih (pos + 1) a e h

theorem extractActions_params_no_newline (s : String) :
    ∀ a ∈ extractActions s, ∀ c ∈ a.params.data, c ≠ '\n' := by
  unfold extractActions
  generalize 0 = pos
  generalize s.data.length + 1 = fuel
  induction fuel generalizing pos with
  | zero =>
      intro a ha
      exact absurd ha (by simp [extractActionsAux])
  | succ n ih =>
      intro a ha
      unfold extractActionsAux at ha
      split at ha
      · exact absurd ha (by simp)
      · rename_i a2 e2 hx
        simp only [List.mem_cons] at ha
        rcases ha with rfl | ha
        · exact findActionFrom_params_no_newline s (s.data.length + 1 - pos) pos a e2 hx
        · exact ih e2 a ha

/-- JavaScript substring: both indices are clamped to the string length
and swapped when given out of order. -/
def jsSubstring (s : String) (a b : Nat) : String :=
  String.mk ((s.data.drop (min (min a s.data.length) (min b s.data.length))).take
    (max (min a s.data.length) (min b s.data.length) -
      min (min a s.data.length) (min b s.data.length)))

/-- The malformed-parameters message thrown by handleWriteFile. -/
def writeFileFormatError : String :=
  "Invalid WRITE_FILE format. Use: path:CONTENT_START\\ncontent\\nCONTENT_END"

/-- handleWriteFile from the enhanced agent: locate the first
CONTENT_START marker and the last CONTENT_END marker in the parameter
payload; if either is absent, fail with the malformed-parameters
message before any write; otherwise the trimmed text before the start
marker is the path and the text between the markers is the content, and
the single recorded write receives exactly that pair. -/
def handleWriteFile (params : String) :
    Except String (String × String) × List (String × String) :=
  match jsIndexOf params ":CONTENT_START\n", jsLastIndexOf params "\nCONTENT_END" with
  | some cs, some ce =>
      (Except.ok (jsTrim (jsSubstring params 0 cs), jsSubstring params (cs + 15) ce),
        [(jsTrim (jsSubstring params 0 cs), jsSubstring params (cs + 15) ce)])
  | some _, none => (Except.error writeFileFormatError, [])
  | none, _ => (Except.error writeFileFormatError, [])

/-- The WRITE_FILE reply from the scenario of the specification. -/
def writeFileScenario : String :=
  "ACTION:WRITE_FILE:notes.txt:CONTENT_START\nhello\nCONTENT_END"

/-- Claim C1, evaluated on the code at the failing input: the
extraction pattern of processActions cuts the parameter payload at the
first newline, so the WRITE_FILE reply of the specification scenario
yields the single-line payload notes.txt:CONTENT_START instead of the
multi-line payload running to the end of the text, and handleWriteFile
then rejects that truncated payload as malformed with no write. -/
theorem extractActions_truncates_write_file :
    extractActions writeFileScenario =
      [ActionMatch.mk "WRITE_FILE" "notes.txt:CONTENT_START"
        "ACTION:WRITE_FILE:notes.txt:CONTENT_START"] ∧
    handleWriteFile "notes.txt:CONTENT_START" = (Except.error writeFileFormatError, []) :=
  ⟨rfl, rfl⟩

theorem strMk_data : ∀ s : String, String.mk s.data = s
  | String.mk _ => rfl

theorem occursAt_of_data (s pat : String) (i : Nat) (pre suf : List Char)
    (h : s.data = pre ++ (pat.data ++ suf)) (hi : i = pre.length) :
    occursAt s pat i = true := by
  unfold occursAt
  rw [h, hi, List.drop_left, List.take_left]
  exact beq_self_eq_true pat.data

theorem occursAt_le_length (s pat : String) (i : Nat) (hpat : 0 < pat.data.length)
    (h : occursAt s pat i = true) : i + pat.data.length ≤ s.data.length := by
  unfold occursAt at h
  have h2 := eq_of_beq h
  have h3 := congrArg List.length h2
  simp only [List.length_take, List.length_drop] at h3
  omega

theorem findLastFrom_eq_some (s pat : String) (k : Nat) (hocc : occursAt s pat k = true) :
    ∀ m, k ≤ m → (∀ j, k < j → j ≤ m → occursAt s pat j = false) →
      findLastFrom s pat m = some k := by
  intro m
  induction m with
  | zero =>
      intro hk _
      have hk0 : k = 0 := by omega
      subst hk0
      simp [findLastFrom, hocc]
  | succ n ih =>
      intro hk habove
      by_cases he : k = n + 1
      · subst he
        simp [findLastFrom, hocc]
      · have h1 : occursAt s pat (n + 1) = false := habove (n + 1) (by omega) (by omega)
        simp only [findLastFrom, h1, Bool.false_eq_true, if_false]
        exact ih (by omega) (fun j hj1 hj2 => habove j hj1 (by omega))

/-- Claim C7: a WRITE_FILE payload missing the CONTENT_START marker or
the CONTENT_END marker fails with the malformed-parameters message and
records no write; a payload of the form path, start marker, content,
end marker — with no earlier occurrence of the start marker — produces
exactly one write whose path is the trimmed text before the start
marker and whose content is exactly the text between the markers. -/
theorem handleWriteFile_markers (path content : String) :
    (∀ params : String,
      jsIndexOf params ":CONTENT_START\n" = none ∨
        jsLastIndexOf params "\nCONTENT_END" = none →
      handleWriteFile params = (Except.error writeFileFormatError, [])) ∧
    ((∀ i, i < path.data.length →
        occursAt (path ++ ":CONTENT_START\n" ++ content ++ "\nCONTENT_END")
          ":CONTENT_START\n" i = false) →
      handleWriteFile (path ++ ":CONTENT_START\n" ++ content ++ "\nCONTENT_END") =
        (Except.ok (jsTrim path, content), [(jsTrim path, content)])) := by
  constructor
  · intro params h
    rcases h with h | h
    · simp [handleWriteFile, h]
    · rcases hcs : jsIndexOf params ":CONTENT_START\n" with _ | cs
      · simp [handleWriteFile, hcs]
      · simp [handleWriteFile, hcs, h]
  · intro hfirst
    have hms : (":CONTENT_START\n" : String).data.length = 15 := rfl
    have hme : ("\nCONTENT_END" : String).data.length = 12 := rfl
    have hdata : (path ++ ":CONTENT_START\n" ++ content ++ "\nCONTENT_END").data =
        path.data ++ ((":CONTENT_START\n" : String).data ++
          (content.data ++ ("\nCONTENT_END" : String).data)) := by
      simp
    have hN : (path ++ ":CONTENT_START\n" ++ content ++ "\nCONTENT_END").data.length =
        path.data.length + 15 + content.data.length + 12 := by
      rw [hdata]
      simp only [List.length_append, hms, hme]
      omega
    have hocc1 : occursAt (path ++ ":CONTENT_START\n" ++ content ++ "\nCONTENT_END")
        ":CONTENT_START\n" path.data.length = true :=
      occursAt_of_data _ _ _ path.data (content.data ++ ("\nCONTENT_END" : String).data)
        hdata rfl
    have hcs : jsIndexOf (path ++ ":CONTENT_START\n" ++ content ++ "\nCONTENT_END")
        ":CONTENT_START\n" = some path.data.length := by
      unfold jsIndexOf findFrom
      rw [scanFirst_eq_some_iff]
      refine ⟨Nat.zero_le _, by omega, hocc1, fun j _ hj => hfirst j hj⟩
    have hocc2 : occursAt (path ++ ":CONTENT_START\n" ++ content ++ "\nCONTENT_END")
        "\nCONTENT_END" (path.data.length + 15 + content.data.length) = true := by
      refine occursAt_of_data _ _ _
        (path.data ++ ((":CONTENT_START\n" : String).data ++ content.data)) [] ?_ ?_
      · rw [hdata]
        simp
      · simp only [List.length_append, hms]
        omega
    have hce : jsLastIndexOf (path ++ ":CONTENT_START\n" ++ content ++ "\nCONTENT_END")
        "\nCONTENT_END" = some (path.data.length + 15 + content.data.length) := by
      unfold jsLastIndexOf
      refine findLastFrom_eq_some _ _ _ hocc2 _ (by omega) ?_
      intro j hj1 _
      cases ho : occursAt (path ++ ":CONTENT_START\n" ++ content ++ "\nCONTENT_END")
          "\nCONTENT_END" j with
      | false => rfl
      | true =>
          have := occursAt_le_length _ _ j (by rw [hme]; omega) ho
          rw [hme, hN] at this
          omega
    have hsub1 : jsSubstring (path ++ ":CONTENT_START\n" ++ content ++ "\nCONTENT_END")
        0 path.data.length = path := by
      unfold jsSubstring
      rw [hN]
      have hmin0 : min 0 (path.data.length + 15 + content.data.length + 12) = 0 := by omega
      have hminp : min path.data.length (path.data.length + 15 + content.data.length + 12) =
          path.data.length := by omega
      rw [hmin0, hminp]
      have hmin2 : min 0 path.data.length = 0 := by omega
      have hmax2 : max 0 path.data.length = path.data.length := by omega
      rw [hmin2, hmax2, List.drop_zero, Nat.sub_zero, hdata,
        List.take_left' rfl, strMk_data]
    have hsub2 : jsSubstring (path ++ ":CONTENT_START\n" ++ content ++ "\nCONTENT_END")
        (path.data.length + 15) (path.data.length + 15 + content.data.length) = content := by
      unfold jsSubstring
      rw [hN]
      have hmina : min (path.data.length + 15)
          (path.data.length + 15 + content.data.length + 12) = path.data.length + 15 := by omega
      have hminb : min (path.data.length + 15 + content.data.length)
          (path.data.length + 15 + content.data.length + 12) =
          path.data.length + 15 + content.data.length := by omega
      rw [hmina, hminb]
      have hmin2 : min (path.data.length + 15) (path.data.length + 15 + content.data.length) =
          path.data.length + 15 := by omega
      have hmax2 : max (path.data.length + 15) (path.data.length + 15 + content.data.length) =
          path.data.length + 15 + content.data.length := by omega
      rw [hmin2, hmax2]
      have hrw : (path ++ ":CONTENT_START\n" ++ content ++ "\nCONTENT_END").data =
          (path.data ++ (":CONTENT_START\n" : String).data) ++
            (content.data ++ ("\nCONTENT_END" : String).data) := by
        rw [hdata]
        simp
      rw [hrw, List.drop_left' (by simp only [List.length_append, hms]),
        Nat.add_sub_cancel_left, List.take_left' rfl, strMk_data]
    unfold handleWriteFile
    rw [hcs, hce]
    simp only [hsub1, hsub2]

/-- Witness for claim C7: the scenario payload produces the path
notes.txt and the content hello as the single write, and the payload
with the CONTENT_END marker missing is rejected with no write. -/
theorem handleWriteFile_markers_witness :
    handleWriteFile "notes.txt:CONTENT_START\nhello\nCONTENT_END" =
      (Except.ok ("notes.txt", "hello"), [("notes.txt", "hello")]) ∧
    handleWriteFile "notes.txt:CONTENT_START\nhello" =
      (Except.error writeFileFormatError, []) := by
  constructor
  · have he : "notes.txt" ++ ":CONTENT_START\n" ++ "hello" ++ "\nCONTENT_END" =
        "notes.txt:CONTENT_START\nhello\nCONTENT_END" := by decide
    have h := (handleWriteFile_markers "notes.txt" "hello").2 (by decide)
    rw [he] at h
    exact h.trans rfl
  · exact (handleWriteFile_markers "notes.txt" "hello").1
      "notes.txt:CONTENT_START\nhello" (Or.inr (by decide))

/-- The green terminal colour wrapper used for the success banner. -/
def chalkGreen (s : String) : String := "\x1b[32m" ++ s ++ "\x1b[39m"

/-- The red terminal colour wrapper used for the failure annotation. -/
def chalkRed (s : String) : String := "\x1b[31m" ++ s ++ "\x1b[39m"

/-- JavaScript String.replace with a plain string pattern: replace the
first occurrence only, and leave the text unchanged when the pattern is
absent. -/
def replaceFirst (s target repl : String) : String :=
  match findFrom s target 0 with
  | none => s
  | some i => String.mk (s.data.take i ++ repl.data ++ s.data.drop (i + target.data.length))

/-- The text spliced over a successful action token by processActions. -/
def successSplice (result : String) : String :=
  chalkGreen "Action completed successfully" ++ "\n\n" ++ result

/-- The text spliced over a failed action token by processActions: the
original token stays in place, followed by the inline failure
annotation. -/
def failureSplice (fullMatch errMsg : String) : String :=
  fullMatch ++ "\n" ++ chalkRed ("Action failed: " ++ errMsg)

/-- One iteration of the action loop of processActions: run the
executor on the action, record the outcome, and splice the matching
text of the token in the processed response. -/
def processActionsStep (exec : String → String → Except String String)
    (acc : String × List (String × String × Bool)) (a : ActionMatch) :
    String × List (String × String × Bool) :=
  match exec a.actionType a.params with
  | Except.ok result =>
      (replaceFirst acc.1 a.fullMatch (successSplice result),
        acc.2 ++ [(a.fullMatch, result, true)])
  | Except.error e =>
      (replaceFirst acc.1 a.fullMatch (failureSplice a.fullMatch e),
        acc.2 ++ [(a.fullMatch, e, false)])

/-- processActions from the enhanced agent, with executeAction
abstracted as a function from type and parameters to a result or an
error: extract every action token, then run them sequentially in
extraction order, splicing each token with its success block or its
failure annotation as the loop goes. -/
def processActions (exec : String → String → Except String String) (response : String) :
    String × List (String × String × Bool) :=
  (extractActions response).foldl (processActionsStep exec) (response, [])

/-- The recorded outcome of one action: the matched token text, the
result or error message, and the success flag. -/
def actionOutcome (exec : String → String → Except String String) (a : ActionMatch) :
    String × String × Bool :=
  match exec a.actionType a.params with
  | Except.ok r => (a.fullMatch, r, true)
  | Except.error e => (a.fullMatch, e, false)

theorem processActions_foldl (exec : String → String → Except String String) :
    ∀ (l : List ActionMatch) (txt : String) (rs : List (String × String × Bool)),
      (l.foldl (processActionsStep exec) (txt, rs)).2 = rs ++ l.map (actionOutcome exec) ∧
      (l.foldl (processActionsStep exec) (txt, rs)).1 =
        l.foldl (fun t a =>
          match exec a.actionType a.params with
          | Except.ok r => replaceFirst t a.fullMatch (successSplice r)
          | Except.error e => replaceFirst t a.fullMatch (failureSplice a.fullMatch e)) txt := by
  intro l
  induction l with
  | nil =>
      intro txt rs
      simp
  | cons a l ih =>
      intro txt rs
      simp only [List.foldl_cons, List.map_cons]
      cases he : exec a.actionType a.params with
      | ok r =>
          have h1 := ih (replaceFirst txt a.fullMatch (successSplice r))
            (rs ++ [(a.fullMatch, r, true)])
          constructor
          · rw [show processActionsStep exec (txt, rs) a =
                (replaceFirst txt a.fullMatch (successSplice r),
                  rs ++ [(a.fullMatch, r, true)]) from by
                simp [processActionsStep, he]]
            rw [h1.1, actionOutcome, he]
            simp
          · rw [show processActionsStep exec (txt, rs) a =
                (replaceFirst txt a.fullMatch (successSplice r),
                  rs ++ [(a.fullMatch, r, true)]) from by
                simp [processActionsStep, he]]
            rw [h1.2]
      | error e =>
          have h1 := ih (replaceFirst txt a.fullMatch (failureSplice a.fullMatch e))
            (rs ++ [(a.fullMatch, e, false)])
          constructor
          · rw [show processActionsStep exec (txt, rs) a =
                (replaceFirst txt a.fullMatch (failureSplice a.fullMatch e),
                  rs ++ [(a.fullMatch, e, false)]) from by
                simp [processActionsStep, he]]
            rw [h1.1, actionOutcome, he]
            simp
          · rw [show processActionsStep exec (txt, rs) a =
                (replaceFirst txt a.fullMatch (failureSplice a.fullMatch e),
                  rs ++ [(a.fullMatch, e, false)]) from by
                simp [processActionsStep, he]]
            rw [h1.2]

/-- Claim C6: processActions runs every extracted action sequentially
in extraction order; the recorded outcomes cover all the actions, one
outcome per action with its own success flag, so a failed action never
aborts its siblings; and the processed response is built by splicing,
per action, either the success block over the token or the token kept
in place followed by the inline failure annotation. -/
theorem processActions_runs_all (exec : String → String → Except String String)
    (response : String) :
    (processActions exec response).2 =
      (extractActions response).map (actionOutcome exec) ∧
    (processActions exec response).1 =
      (extractActions response).foldl (fun t a =>
        match exec a.actionType a.params with
        | Except.ok r => replaceFirst t a.fullMatch (successSplice r)
        | Except.error e => replaceFirst t a.fullMatch (failureSplice a.fullMatch e))
        response := by
  have h := processActions_foldl exec (extractActions response) response []
  exact ⟨by simpa using h.1, h.2⟩

/-- The persisted permission levels of actions.js. -/
inductive PermissionLevel where
  | allow
  | disallow
  | allowForever
  | autoApprove
deriving DecidableEq, Repr

/-- The action types that require permission. -/
inductive ActionType where
  | fileRead
  | fileWrite
  | fileDelete
  | commandExec
deriving DecidableEq, Repr

/-- The persisted configuration consulted by the permission gate: the
per-type permission record and the approved-command list. -/
structure Config where
  permissions : ActionType → Option PermissionLevel
  approvedCommands : List String

/-- isActionAllowedForever from actions.js. -/
def isActionAllowedForever (cfg : Config) (t : ActionType) : Bool :=
  match cfg.permissions t with
  | some PermissionLevel.allowForever => true
  | _ => false

/-- isAutoApproveEnabled from actions.js. -/
def isAutoApproveEnabled (cfg : Config) (t : ActionType) : Bool :=
  match cfg.permissions t with
  | some PermissionLevel.autoApprove => true
  | _ => false

/-- setActionAllowedForever from actions.js: persist the forever-grant
for one action type. -/
def setActionAllowedForever (cfg : Config) (t : ActionType) : Config :=
  Config.mk (fun u => if u = t then some PermissionLevel.allowForever else cfg.permissions u)
    cfg.approvedCommands

/-- setAutoApprove from actions.js: persist auto-approve for one
action type. -/
def setAutoApprove (cfg : Config) (t : ActionType) : Config :=
  Config.mk (fun u => if u = t then some PermissionLevel.autoApprove else cfg.permissions u)
    cfg.approvedCommands

/-- addApprovedCommand from actions.js: append the command to the
approved list unless it is already present. -/
def addApprovedCommand (cfg : Config) (c : String) : Config :=
  if cfg.approvedCommands.contains c then cfg
  else Config.mk cfg.permissions (cfg.approvedCommands ++ [c])

/-- The selection the user makes at the interactive permission prompt,
including cancelling the prompt. -/
inductive UserChoice where
  | allow
  | disallow
  | allowForever
  | autoApprove
  | approveCommand
  | cancel
deriving DecidableEq, Repr

/-- The interactive select of promptForPermission once it is shown:
the chosen option is applied to the configuration and the resulting
permission value is returned; a cancelled prompt counts as disallow,
and the approve-command option allows after adding the command. -/
def promptSelect (cfg : Config) (t : ActionType) (cmd : Option String) (choice : UserChoice) :
    UserChoice × Bool × Config :=
  match choice with
  | UserChoice.allowForever => (UserChoice.allowForever, true, setActionAllowedForever cfg t)
  | UserChoice.autoApprove => (UserChoice.allow, true, setAutoApprove cfg t)
  | UserChoice.approveCommand =>
      match cmd with
      | some c => (UserChoice.allow, true, addApprovedCommand cfg c)
      | none => (UserChoice.approveCommand, true, cfg)
  | UserChoice.cancel => (UserChoice.disallow, true, cfg)
  | UserChoice.allow => (UserChoice.allow, true, cfg)
  | UserChoice.disallow => (UserChoice.disallow, true, cfg)

/-- promptForPermission from actions.js: for a command execution whose
command is approved while auto-approve is enabled, allow without
showing the interactive select; otherwise show the select. The middle
component records whether the interactive prompt was presented. -/
def promptForPermission (cfg : Config) (t : ActionType) (cmd : Option String)
    (choice : UserChoice) : UserChoice × Bool × Config :=
  match t, cmd with
  | ActionType.commandExec, some c =>
      if isCommandApproved cfg.approvedCommands c &&
          isAutoApproveEnabled cfg ActionType.commandExec then
        (UserChoice.allow, false, cfg)
      else promptSelect cfg t cmd choice
  | _, _ => promptSelect cfg t cmd choice

/-- checkPermission from actions.js: a forever-grant allows at once;
a command execution with auto-approve enabled and an approved command
allows at once; otherwise the user is prompted and the action is
allowed when the returned permission is allow or allow-forever. The
result is the allowed flag, the prompted flag, and the updated
configuration. -/
def checkPermission (cfg : Config) (t : ActionType) (cmd : Option String)
    (choice : UserChoice) : Bool × Bool × Config :=
  if isActionAllowedForever cfg t then (true, false, cfg)
  else
    match t, cmd with
    | ActionType.commandExec, some c =>
        if isAutoApproveEnabled cfg ActionType.commandExec &&
            isCommandApproved cfg.approvedCommands c then
          (true, false, cfg)
        else
          ((promptForPermission cfg t cmd choice).1 == UserChoice.allow ||
              (promptForPermission cfg t cmd choice).1 == UserChoice.allowForever,
            (promptForPermission cfg t cmd choice).2.1,
            (promptForPermission cfg t cmd choice).2.2)
    | _, _ =>
        ((promptForPermission cfg t cmd choice).1 == UserChoice.allow ||
            (promptForPermission cfg t cmd choice).1 == UserChoice.allowForever,
          (promptForPermission cfg t cmd choice).2.1,
          (promptForPermission cfg t cmd choice).2.2)

/-- One authorization request of a session: the action type, the
command when the action is a command execution, and the selection the
user would make if prompted. -/
structure CheckOp where
  t : ActionType
  cmd : Option String
  choice : UserChoice

/-- Run a sequence of authorization checks, threading the
configuration and recording, for each check, its action type, allowed
flag, and prompted flag. -/
def runChecks (cfg : Config) : List CheckOp → Config × List (ActionType × Bool × Bool)
  | [] => (cfg, [])
  | op :: ops =>
      ((runChecks (checkPermission cfg op.t op.cmd op.choice).2.2 ops).1,
        (op.t, (checkPermission cfg op.t op.cmd op.choice).1,
          (checkPermission cfg op.t op.cmd op.choice).2.1) ::
          (runChecks (checkPermission cfg op.t op.cmd op.choice).2.2 ops).2)

/-- Every recorded check of the given action type resolved allowed
without presenting the interactive prompt. -/
def resultsForeverOk (t : ActionType) (rs : List (ActionType × Bool × Bool)) : Bool :=
  rs.all (fun r => (!(r.1 == t)) || (r.2.1 && !r.2.2))

theorem checkPermission_forever (cfg : Config) (t : ActionType) (cmd : Option String)
    (choice : UserChoice) (h : isActionAllowedForever cfg t = true) :
    checkPermission cfg t cmd choice = (true, false, cfg) := by
  unfold checkPermission
  rw [h]
  rfl

theorem promptSelect_preserves_forever (cfg : Config) (t t2 : ActionType)
    (cmd : Option String) (choice : UserChoice) (h : isActionAllowedForever cfg t = true)
    (hne : t2 ≠ t) :
    isActionAllowedForever (promptSelect cfg t2 cmd choice).2.2 t = true := by
  cases choice with
  | allowForever =>
      simp only [promptSelect, setActionAllowedForever]
      unfold isActionAllowedForever at h ⊢
      simp only [if_neg (fun e : t = t2 => hne e.symm)]
      exact h
  | autoApprove =>
      simp only [promptSelect, setAutoApprove]
      unfold isActionAllowedForever at h ⊢
      simp only [if_neg (fun e : t = t2 => hne e.symm)]
      exact h
  | approveCommand =>
      cases cmd with
      | some c =>
          simp only [promptSelect, addApprovedCommand]
          by_cases hc : cfg.approvedCommands.contains c
          · simp only [hc, if_true]
            exact h
          · simp only [hc, Bool.false_eq_true, if_false]
            exact h
      | none => exact h
  | cancel => exact h
  | allow => exact h
  | disallow => exact h


theorem promptForPermission_preserves_forever (cfg : Config) (t t2 : ActionType)
    (cmd : Option String) (choice : UserChoice) (h : isActionAllowedForever cfg t = true)
    (hne : t2 ≠ t) :
    isActionAllowedForever (promptForPermission cfg t2 cmd choice).2.2 t = true := by
  unfold promptForPermission
  split
  · split
    · exact h
    · exact promptSelect_preserves_forever cfg t ActionType.commandExec _ choice h hne
  · exact promptSelect_preserves_forever cfg t t2 cmd choice h hne

theorem checkPermission_preserves_forever (cfg : Config) (t t2 : ActionType)
    (cmd : Option String) (choice : UserChoice) (h : isActionAllowedForever cfg t = true) :
    isActionAllowedForever (checkPermission cfg t2 cmd choice).2.2 t = true := by
  by_cases he : t2 = t
  · subst he
    rw [checkPermission_forever cfg t2 cmd choice h]
    exact h
  · unfold checkPermission
    split
    · exact h
    · split
      · split
        · exact h
        · exact promptForPermission_preserves_forever cfg t ActionType.commandExec _ choice h he
      · exact promptForPermission_preserves_forever cfg t t2 cmd choice h he

/-- Claim C4: once a forever-grant is persisted for an action type,
every subsequent authorization check in the session resolves allowed
for that type without presenting the interactive prompt, whatever other
checks, commands, and user selections happen in between. -/
theorem foreverGrant_always_allowed (cfg : Config) (t : ActionType)
    (h : isActionAllowedForever cfg t = true) (ops : List CheckOp) :
    resultsForeverOk t (runChecks cfg ops).2 = true := by
  induction ops generalizing cfg with
  | nil => rfl
  | cons op ops ih =>
      unfold runChecks resultsForeverOk
      rw [List.all_cons]
      rw [Bool.and_eq_true]
      constructor
      · by_cases he : op.t = t
        · subst he
          rw [checkPermission_forever cfg op.t op.cmd op.choice h]
          simp
        · simp [he]
      · exact ih (checkPermission cfg op.t op.cmd op.choice).2.2
          (checkPermission_preserves_forever cfg t op.t op.cmd op.choice h)

/-- A configuration with a forever-grant for every action type, used
to instantiate the forever-grant invariant. -/
def cfgForever : Config := Config.mk (fun _ => some PermissionLevel.allowForever) []

/-- A demonstration session: a risky command execution answered with
disallow, then a file write answered with auto-approve. -/
def opsDemo : List CheckOp :=
  [CheckOp.mk ActionType.commandExec (some "rm -rf /tmp/x") UserChoice.disallow,
    CheckOp.mk ActionType.fileWrite none UserChoice.autoApprove]

/-- Witness for claim C4 at a concrete configuration and session. -/
theorem foreverGrant_always_allowed_witness :
    isActionAllowedForever cfgForever ActionType.commandExec = true ∧
    resultsForeverOk ActionType.commandExec (runChecks cfgForever opsDemo).2 = true :=
  ⟨rfl, foreverGrant_always_allowed cfgForever ActionType.commandExec rfl opsDemo⟩

/-- Claim C5: with auto-approve enabled for command execution, a check
for a command that does not match the approved list still presents the
interactive prompt, whatever the user then selects; auto-approve
bypasses the prompt, resolving allowed with the configuration
untouched, only for commands that positively match the approved list. -/
theorem autoApprove_unapproved_still_prompts (cfg : Config) (c : String)
    (choice : UserChoice)
    (h : cfg.permissions ActionType.commandExec = some PermissionLevel.autoApprove) :
    (isCommandApproved cfg.approvedCommands c = false →
      (checkPermission cfg ActionType.commandExec (some c) choice).2.1 = true) ∧
    (isCommandApproved cfg.approvedCommands c = true →
      checkPermission cfg ActionType.commandExec (some c) choice = (true, false, cfg)) := by
  have hnf : isActionAllowedForever cfg ActionType.commandExec = false := by
    unfold isActionAllowedForever
    rw [h]
  have hauto : isAutoApproveEnabled cfg ActionType.commandExec = true := by
    unfold isAutoApproveEnabled
    rw [h]
  have hstep : checkPermission cfg ActionType.commandExec (some c) choice =
      (if isActionAllowedForever cfg ActionType.commandExec = true then (true, false, cfg)
       else if (isAutoApproveEnabled cfg ActionType.commandExec &&
           isCommandApproved cfg.approvedCommands c) = true then (true, false, cfg)
       else ((promptForPermission cfg ActionType.commandExec (some c) choice).1 ==
              UserChoice.allow ||
            (promptForPermission cfg ActionType.commandExec (some c) choice).1 ==
              UserChoice.allowForever,
          (promptForPermission cfg ActionType.commandExec (some c) choice).2.1,
          (promptForPermission cfg ActionType.commandExec (some c) choice).2.2)) := rfl
  have hpstep : promptForPermission cfg ActionType.commandExec (some c) choice =
      (if (isCommandApproved cfg.approvedCommands c &&
          isAutoApproveEnabled cfg ActionType.commandExec) = true
       then (UserChoice.allow, false, cfg)
       else promptSelect cfg ActionType.commandExec (some c) choice) := rfl
  constructor
  · intro hnc
    rw [hstep]
    simp only [hnf, hauto, hnc, Bool.true_and, Bool.and_false, Bool.false_eq_true, if_false]
    rw [hpstep]
    simp only [hnc, Bool.false_and, Bool.false_eq_true, if_false]
    cases choice with
    | allow => rfl
    | disallow => rfl
    | allowForever => rfl
    | autoApprove => rfl
    | approveCommand => rfl
    | cancel => rfl
  · intro hc
    rw [hstep]
    simp only [hnf, hauto, hc, Bool.true_and, Bool.and_self, Bool.false_eq_true, if_false,
      if_true]

/-- A configuration with auto-approve persisted for command execution
and a single approved command. -/
def cfgAuto : Config :=
  Config.mk (fun u => if u = ActionType.commandExec then some PermissionLevel.autoApprove
    else none) ["ls"]

/-- Witness for claim C5: under cfgAuto an unapproved command still
prompts even though the user answer is disallow, and an approved
command bypasses the prompt and is allowed. -/
theorem autoApprove_unapproved_still_prompts_witness :
    (checkPermission cfgAuto ActionType.commandExec (some "rm -rf /tmp/x")
      UserChoice.disallow).2.1 = true ∧
    checkPermission cfgAuto ActionType.commandExec (some "ls -la")
      UserChoice.disallow = (true, false, cfgAuto) :=
  ⟨(autoApprove_unapproved_still_prompts cfgAuto "rm -rf /tmp/x" UserChoice.disallow rfl).1
      (by decide),
    (autoApprove_unapproved_still_prompts cfgAuto "ls -la" UserChoice.disallow rfl).2
      (by decide)⟩

/-- One entry of the conversation history of the base agent: role,
content, and timestamp. -/
structure ChatMessage where
  role : String
  content : String
  timestamp : String
deriving DecidableEq, Repr

/-- The state of AIAgent that query reads and mutates: the system
prompt and the conversation history. -/
structure AgentState where
  systemPrompt : String
  conversationHistory : List ChatMessage
deriving DecidableEq, Repr

/-- buildMessageHistory from agent.js: the system prompt first, then
every user and assistant turn of the history without timestamps. -/
def buildMessageHistory (st : AgentState) : List (String × String) :=
  ("system", st.systemPrompt) ::
    st.conversationHistory.filterMap (fun m =>
      if m.role == "user" || m.role == "assistant" then some (m.role, m.content) else none)

/-- AIAgent.query from agent.js, with the model call abstracted as a
function from the built message list to a response or an error and the
two clock reads passed as the timestamps: the user turn is appended
first, then the backend is called on the history built from the
already-extended state; on success the assistant turn is appended too,
and on failure the error is rethrown with the query-failed prefix
while the user turn stays appended. -/
def agentQuery (st : AgentState) (message tsUser tsAssistant : String)
    (callAI : List (String × String) → Except String String) :
    Except String String × AgentState :=
  match callAI (buildMessageHistory (AgentState.mk st.systemPrompt
      (st.conversationHistory ++ [ChatMessage.mk "user" message tsUser]))) with
  | Except.ok response =>
      (Except.ok response,
        AgentState.mk st.systemPrompt
          ((st.conversationHistory ++ [ChatMessage.mk "user" message tsUser]) ++
            [ChatMessage.mk "assistant" response tsAssistant]))
  | Except.error e =>
      (Except.error ("AI query failed: " ++ e),
        AgentState.mk st.systemPrompt
          (st.conversationHistory ++ [ChatMessage.mk "user" message tsUser]))

/-- Claim C10: query appends the user turn before the backend call, so
the message list handed to the backend ends with that user turn; on a
successful call exactly the user turn and then the assistant turn are
appended, in that order; on a failed call the method returns the
prefixed error and the user turn remains appended, so the history is
mutated even when the query fails. -/
theorem agentQuery_history (st : AgentState) (message tsU tsA : String)
    (callAI : List (String × String) → Except String String) :
    (buildMessageHistory (AgentState.mk st.systemPrompt
        (st.conversationHistory ++ [ChatMessage.mk "user" message tsU]))).getLast? =
      some ("user", message) ∧
    (∀ r, callAI (buildMessageHistory (AgentState.mk st.systemPrompt
        (st.conversationHistory ++ [ChatMessage.mk "user" message tsU]))) = Except.ok r →
      agentQuery st message tsU tsA callAI =
        (Except.ok r, AgentState.mk st.systemPrompt
          (st.conversationHistory ++
            [ChatMessage.mk "user" message tsU, ChatMessage.mk "assistant" r tsA]))) ∧
    (∀ e, callAI (buildMessageHistory (AgentState.mk st.systemPrompt
        (st.conversationHistory ++ [ChatMessage.mk "user" message tsU]))) = Except.error e →
      agentQuery st message tsU tsA callAI =
        (Except.error ("AI query failed: " ++ e), AgentState.mk st.systemPrompt
          (st.conversationHistory ++ [ChatMessage.mk "user" message tsU]))) := by
  refine ⟨?_, ?_, ?_⟩
  · unfold buildMessageHistory
    rw [List.filterMap_append]
    have hlast : (List.filterMap (fun m =>
        if m.role == "user" || m.role == "assistant" then some (m.role, m.content) else none)
        [ChatMessage.mk "user" message tsU]) = [("user", message)] := rfl
    rw [hlast]
    rw [show ("system", st.systemPrompt) ::
        (List.filterMap (fun m =>
          if m.role == "user" || m.role == "assistant" then some (m.role, m.content) else none)
          st.conversationHistory ++ [("user", message)]) =
        (("system", st.systemPrompt) ::
          List.filterMap (fun m =>
            if m.role == "user" || m.role == "assistant" then some (m.role, m.content) else none)
            st.conversationHistory) ++ [("user", message)] from rfl]
    exact List.getLast?_concat _
  · intro r hr
    unfold agentQuery
    rw [hr]
    simp [List.append_assoc]
  · intro e he
    unfold agentQuery
    rw [he]

/-- A backend that always answers pong. -/
def okBackend : List (String × String) → Except String String := fun _ => Except.ok "pong"

/-- A backend that always fails. -/
def errBackend : List (String × String) → Except String String := fun _ => Except.error "boom"

/-- A fresh agent state for the query witnesses. -/
def stDemo : AgentState := AgentState.mk "sys" []

/-- Witness for claim C10 at a concrete state and both backends. -/
theorem agentQuery_history_witness :
    agentQuery stDemo "ping" "t1" "t2" okBackend =
      (Except.ok "pong", AgentState.mk "sys"
        [ChatMessage.mk "user" "ping" "t1", ChatMessage.mk "assistant" "pong" "t2"]) ∧
    agentQuery stDemo "ping" "t1" "t2" errBackend =
      (Except.error "AI query failed: boom", AgentState.mk "sys"
        [ChatMessage.mk "user" "ping" "t1"]) := by
  constructor
  · have h := (agentQuery_history stDemo "ping" "t1" "t2" okBackend).2.1 "pong" rfl
    simpa using h
  · have h := (agentQuery_history stDemo "ping" "t1" "t2" errBackend).2.2 "boom" rfl
    simpa using h

/-- Witness for claim C2 at a concrete command and approved list. -/
theorem isCommandApproved_iff_witness : isCommandApproved ["ls"] "ls -la" = true :=
  (isCommandApproved_iff ["ls"] "ls -la").mpr (Or.inr ⟨"ls", by decide, by decide⟩)

/-- Witness for claim C9: a file with no whitespace-only line rejects
the empty-search block through the pattern-not-found path. -/
theorem applyReplaceBlock_empty_search_iff_witness :
    applyReplaceBlock ["foo"] "" "x" =
      Except.error ("Search pattern not found in file:\n" ++ "") :=
  (applyReplaceBlock_empty_search_iff ["foo"] "x").mpr (by decide)

/-- Witness for claim C8 at the mixed diff document: the apply loop of
applyFileDiffCore runs over the reversed parse order. -/
theorem parseDiffBlocks_order_witness :
    applyFileDiffCore "C\n" mixedDiffDoc =
      match applyBlocksSeq (jsSplitNl "C\n") 0 (parseDiffBlocks mixedDiffDoc).reverse with
      | Except.ok (ls, total) => Except.ok (joinNl ls, total)
      | Except.error e => Except.error e := by
  obtain ⟨rps, ips, -, -, -, -, -, happ⟩ := parseDiffBlocks_order mixedDiffDoc
  exact happ "C\n"
